import Mathlib

/-!
Verification of the two-asset Modern Portfolio Theory engine in
src/portfolio_mix.py.

Prices are modelled as lists of rationals; Python float arithmetic is
modelled as exact arithmetic over ℚ, with real square roots (ℝ) where the
code calls math.sqrt / statistics.stdev.  Fallible operations (Python
exceptions: StatisticsError, ZeroDivisionError, IndexError) are modelled by
Option-valued variants, marked with a trailing question mark.
-/

namespace PortfolioMix

/-- statistics.mean: arithmetic mean of a price list (sum divided by length). -/
def mean (l : List ℚ) : ℚ := l.sum / l.length

/-- statistics.variance: sample variance with divisor n - 1 (Bessel). -/
def svar (l : List ℚ) : ℚ :=
  (l.map (fun x => (x - mean l) ^ 2)).sum / ((l.length : ℚ) - 1)

/-- statistics.stdev: sample standard deviation, square root of the sample variance. -/
noncomputable def stdev (l : List ℚ) : ℝ := Real.sqrt (svar l)

/-- calc_expected_return: (prices[-1] - prices[0]) / prices[0]. -/
def calc_expected_return (prices : List ℚ) : ℚ :=
  (prices.getLastD 0 - prices.headD 0) / prices.headD 0

/-- calc_percent_deviation: statistics.stdev(prices) / statistics.mean(prices). -/
noncomputable def calc_percent_deviation (prices : List ℚ) : ℝ :=
  stdev prices / (mean prices : ℝ)

/-- calc_covariance: sum of positional products (a - mean_a) * (b - mean_b)
over zip(prices_a, prices_b), divided by len(prices_a) - 1. -/
def calc_covariance (prices_a prices_b : List ℚ) : ℚ :=
  ((prices_a.zip prices_b).map
    (fun p => (p.1 - mean prices_a) * (p.2 - mean prices_b))).sum /
    ((prices_a.length : ℚ) - 1)

/-- calc_correlation: covariance divided by the product of the two standard deviations. -/
noncomputable def calc_correlation (prices_a prices_b : List ℚ) : ℝ :=
  (calc_covariance prices_a prices_b : ℝ) / (stdev prices_a * stdev prices_b)

/-- calc_minimum_variance_allocation: closed-form minimum-variance weight for
asset A, clamped to [0, 1], paired with 1 minus that weight for asset B. -/
noncomputable def calc_minimum_variance_allocation (prices_a prices_b : List ℚ) : ℝ × ℝ :=
  let percent_dev_a := calc_percent_deviation prices_a
  let percent_dev_b := calc_percent_deviation prices_b
  let var_a := percent_dev_a ^ 2
  let var_b := percent_dev_b ^ 2
  let correlation_ab := calc_correlation prices_a prices_b
  let numerator := var_b - correlation_ab * percent_dev_a * percent_dev_b
  let denominator := var_a + var_b - 2 * correlation_ab * percent_dev_a * percent_dev_b
  let raw := numerator / denominator
  let percent_a := if raw > 1 then 1 else if raw < 0 then 0 else raw
  (percent_a, 1 - percent_a)

/-- calc_portfolio_variance: two-asset portfolio variance formula, with the
percent-deviation of each series standing in for its standard deviation. -/
noncomputable def calc_portfolio_variance (percent_a : ℝ) (prices_a : List ℚ)
    (percent_b : ℝ) (prices_b : List ℚ) (correlation_ab : ℝ) : ℝ :=
  let stdev_a := calc_percent_deviation prices_a
  let stdev_b := calc_percent_deviation prices_b
  let var_a := stdev_a ^ 2
  let var_b := stdev_b ^ 2
  percent_a ^ 2 * var_a + percent_b ^ 2 * var_b +
    2 * percent_a * percent_b * correlation_ab * stdev_a * stdev_b

/-- calc_portfolio_expected_return: weight-linear combination of the two
expected returns. -/
noncomputable def calc_portfolio_expected_return (percent_a : ℝ) (prices_a : List ℚ)
    (percent_b : ℝ) (prices_b : List ℚ) : ℝ :=
  percent_a * (calc_expected_return prices_a : ℝ) +
    percent_b * (calc_expected_return prices_b : ℝ)

/-- One iteration of the weight sweep in main: at integer weight percent the
pair (sqrt(portfolio variance), portfolio expected return) with weights
(percent, 100 - percent). -/
noncomputable def frontier_point (percent : ℕ) (prices_a prices_b : List ℚ)
    (correlation_ab : ℝ) : ℝ × ℝ :=
  (Real.sqrt (calc_portfolio_variance (percent : ℝ) prices_a
      (100 - (percent : ℝ)) prices_b correlation_ab),
   calc_portfolio_expected_return (percent : ℝ) prices_a
      (100 - (percent : ℝ)) prices_b)

/-- The frontier built by main: the loop for percent in range(0, 101), with
the correlation computed once before the loop. -/
noncomputable def frontier (prices_a prices_b : List ℚ) : List (ℝ × ℝ) :=
  let correlation_ab := calc_correlation prices_a prices_b
  (List.range 101).map
    (fun percent => frontier_point percent prices_a prices_b correlation_ab)

/-- Fallible calc_expected_return: prices[-1] / prices[0] raise IndexError on
an empty list, and the division raises ZeroDivisionError when prices[0] = 0. -/
def calc_expected_return? (prices : List ℚ) : Option ℚ :=
  if prices.isEmpty then none
  else if prices.headD 0 = 0 then none
  else some (calc_expected_return prices)

/-- Fallible calc_percent_deviation: statistics.stdev raises StatisticsError
on fewer than two points, and the division raises ZeroDivisionError when the
mean is zero. -/
noncomputable def calc_percent_deviation? (prices : List ℚ) : Option ℝ :=
  if prices.length < 2 then none
  else if mean prices = 0 then none
  else some (calc_percent_deviation prices)

/-- Fallible calc_correlation: statistics.stdev on each series raises
StatisticsError on fewer than two points, and the final division raises
ZeroDivisionError when stdev_a * stdev_b = 0. -/
noncomputable def calc_correlation? (prices_a prices_b : List ℚ) : Option ℝ :=
  if prices_a.length < 2 then none
  else if prices_b.length < 2 then none
  else if stdev prices_a * stdev prices_b = 0 then none
  else some (calc_correlation prices_a prices_b)

/-- A mapped sum over a list as an index-ranged finite sum. -/
theorem sum_map_eq_range_sum (g : ℚ → ℚ) (l : List ℚ) :
    (l.map g).sum = ∑ i ∈ Finset.range l.length, g (l.getD i 0) := by
  induction l with
  | nil => simp
  | cons x t ih =>
    rw [List.map_cons, List.sum_cons, List.length_cons, Finset.sum_range_succ']
    simp only [List.getD_cons_succ, List.getD_cons_zero]
    rw [← ih, add_comm]

/-- A mapped sum over the zip of two lists as an index-ranged finite sum over
the first min(len, len) positions. -/
theorem sum_zip_eq_range_sum (f : ℚ → ℚ → ℚ) :
    ∀ a b : List ℚ,
    ((a.zip b).map (fun p => f p.1 p.2)).sum =
      ∑ i ∈ Finset.range (min a.length b.length), f (a.getD i 0) (b.getD i 0) := by
  intro a
  induction a with
  | nil => intro b; simp
  | cons x t ih =>
    intro b
    cases b with
    | nil => simp
    | cons y u =>
      rw [List.zip_cons_cons, List.map_cons, List.sum_cons, List.length_cons,
        List.length_cons, Nat.succ_min_succ, Finset.sum_range_succ']
      simp only [List.getD_cons_succ, List.getD_cons_zero]
      rw [← ih, add_comm]

/-- Indexing the frontier list: position w < 101 holds the sweep's point at
integer weight w. -/
theorem frontier_getD (a b : List ℚ) (w : ℕ) (hw : w < 101) :
    (frontier a b).getD w (0, 0) =
      frontier_point w a b (calc_correlation a b) := by
  unfold frontier
  simp [List.getD_eq_getElem?_getD, List.getElem?_map, List.getElem?_range, hw]

/-- The sample variance as an index-ranged sum of squared deviations. -/
theorem svar_eq_range_sum (l : List ℚ) :
    svar l = (∑ i ∈ Finset.range l.length, (l.getD i 0 - mean l) ^ 2) /
      ((l.length : ℚ) - 1) := by
  unfold svar
  rw [sum_map_eq_range_sum (fun x => (x - mean l) ^ 2)]

/-- Claim C1: the frontier has exactly 101 points; the point at index w is
computed with weights (w, 100 - w); point 0 uses percentA = 0, percentB = 100
and point 100 uses percentA = 100, percentB = 0. -/
theorem frontier_hundred_one_points (a b : List ℚ) :
    (frontier a b).length = 101 ∧
    (∀ w : ℕ, w < 101 → (frontier a b).getD w (0, 0) =
      (Real.sqrt (calc_portfolio_variance (w : ℝ) a (100 - (w : ℝ)) b
          (calc_correlation a b)),
        calc_portfolio_expected_return (w : ℝ) a (100 - (w : ℝ)) b)) ∧
    (frontier a b).getD 0 (0, 0) =
      (Real.sqrt (calc_portfolio_variance 0 a 100 b (calc_correlation a b)),
        calc_portfolio_expected_return 0 a 100 b) ∧
    (frontier a b).getD 100 (0, 0) =
      (Real.sqrt (calc_portfolio_variance 100 a 0 b (calc_correlation a b)),
        calc_portfolio_expected_return 100 a 0 b) := by
  have hidx : ∀ w : ℕ, w < 101 → (frontier a b).getD w (0, 0) =
      (Real.sqrt (calc_portfolio_variance (w : ℝ) a (100 - (w : ℝ)) b
          (calc_correlation a b)),
        calc_portfolio_expected_return (w : ℝ) a (100 - (w : ℝ)) b) := by
    intro w hw
    rw [frontier_getD a b w hw]
    rfl
  refine ⟨by simp [frontier], hidx, ?_, ?_⟩
  · simpa using hidx 0 (by norm_num)
  · simpa using hidx 100 (by norm_num)

/-- Claim C1 witness: the frontier point at index 7 for a concrete pair. -/
theorem frontier_hundred_one_points_witness :
    (frontier [1, 2] [3, 4]).getD 7 (0, 0) =
      (Real.sqrt (calc_portfolio_variance ((7 : ℕ) : ℝ) [1, 2]
          (100 - ((7 : ℕ) : ℝ)) [3, 4] (calc_correlation [1, 2] [3, 4])),
        calc_portfolio_expected_return ((7 : ℕ) : ℝ) [1, 2]
          (100 - ((7 : ℕ) : ℝ)) [3, 4]) :=
  (frontier_hundred_one_points [1, 2] [3, 4]).2.1 7 (by norm_num)

/-- Claim C6: percent deviation fails exactly when the series has fewer than
two points or zero mean; otherwise it returns the sample standard deviation
(square root of the squared deviations from the mean divided by n - 1)
divided by the arithmetic mean. -/
theorem percent_deviation_spec :
    (∀ l : List ℚ, calc_percent_deviation? l = none ↔
      l.length < 2 ∨ mean l = 0) ∧
    (∀ l : List ℚ, 2 ≤ l.length → mean l ≠ 0 →
      calc_percent_deviation? l = some (Real.sqrt
        (((∑ i ∈ Finset.range l.length, (l.getD i 0 - l.sum / l.length) ^ 2) /
          ((l.length : ℚ) - 1) : ℚ)) / ((l.sum / l.length : ℚ) : ℝ))) := by
  constructor
  · intro l
    unfold calc_percent_deviation?
    split_ifs with h1 h2
    · simp [h1]
    · simp [h2]
    · simp [h1, h2]
  · intro l h2 hm
    unfold calc_percent_deviation?
    rw [if_neg (by omega), if_neg hm]
    unfold calc_percent_deviation stdev
    rw [svar_eq_range_sum]
    unfold mean
    rfl

/-- Claim C6 witness: the formula at [1, 3] and the failure at a singleton. -/
theorem percent_deviation_spec_witness :
    calc_percent_deviation? [1, 3] = some (Real.sqrt 2 / 2) ∧
    calc_percent_deviation? [5] = none :=
  ⟨(percent_deviation_spec.2 [1, 3] (by norm_num) (by norm_num [mean])).trans
    (by norm_num [Finset.sum_range_succ]),
   (percent_deviation_spec.1 [5]).mpr (Or.inl (by norm_num))⟩

/-- Claim C10: the portfolio metrics are homogeneous in the weights (degree
two for variance, degree one for expected return); hence every frontier
point is the 100-fold scaling of the corresponding [0,1]-scale portfolio
statistics, and the point at w = 100 has standard deviation
100 * calc_percent_deviation a. -/
theorem weight_scale_homogeneity :
    (∀ (wa wb : ℝ) (a b : List ℚ) (ρ : ℝ),
      calc_portfolio_variance (100 * wa) a (100 * wb) b ρ =
        10000 * calc_portfolio_variance wa a wb b ρ) ∧
    (∀ (wa wb : ℝ) (a b : List ℚ),
      calc_portfolio_expected_return (100 * wa) a (100 * wb) b =
        100 * calc_portfolio_expected_return wa a wb b) ∧
    (∀ (a b : List ℚ) (w : ℕ), w < 101 →
      (frontier a b).getD w (0, 0) =
        (100 * Real.sqrt (calc_portfolio_variance ((w : ℝ) / 100) a
            ((100 - (w : ℝ)) / 100) b (calc_correlation a b)),
          100 * calc_portfolio_expected_return ((w : ℝ) / 100) a
            ((100 - (w : ℝ)) / 100) b)) ∧
    (∀ a b : List ℚ, 0 ≤ mean a →
      ((frontier a b).getD 100 (0, 0)).1 = 100 * calc_percent_deviation a) := by
  have hsqrt : ∀ x : ℝ, Real.sqrt (10000 * x) = 100 * Real.sqrt x := by
    intro x
    rw [show (10000 : ℝ) = 100 ^ 2 by norm_num, Real.sqrt_mul (by positivity),
      Real.sqrt_sq (by norm_num)]
  refine ⟨?_, ?_, ?_, ?_⟩
  · intro wa wb a b ρ
    unfold calc_portfolio_variance
    ring
  · intro wa wb a b
    unfold calc_portfolio_expected_return
    ring
  · intro a b w hw
    rw [frontier_getD a b w hw]
    unfold frontier_point
    have e1 : calc_portfolio_variance (w : ℝ) a (100 - (w : ℝ)) b
        (calc_correlation a b) =
        10000 * calc_portfolio_variance ((w : ℝ) / 100) a
          ((100 - (w : ℝ)) / 100) b (calc_correlation a b) := by
      unfold calc_portfolio_variance
      ring
    have e2 : calc_portfolio_expected_return (w : ℝ) a (100 - (w : ℝ)) b =
        100 * calc_portfolio_expected_return ((w : ℝ) / 100) a
          ((100 - (w : ℝ)) / 100) b := by
      unfold calc_portfolio_expected_return
      ring
    rw [e1, e2, hsqrt]
  · intro a b hm
    rw [frontier_getD a b 100 (by norm_num)]
    unfold frontier_point
    have hpd : 0 ≤ calc_percent_deviation a :=
      div_nonneg (Real.sqrt_nonneg _) (by exact_mod_cast hm)
    have e : calc_portfolio_variance ((100 : ℕ) : ℝ) a
        (100 - ((100 : ℕ) : ℝ)) b (calc_correlation a b) =
        (100 * calc_percent_deviation a) ^ 2 := by
      unfold calc_portfolio_variance
      push_cast
      ring
    show Real.sqrt _ = _
    rw [e, Real.sqrt_sq (mul_nonneg (by norm_num) hpd)]

/-- Claim C10 witness: the scaled form of the frontier point at index 0 and
the 100-fold percent deviation at index 100, for a concrete pair. -/
theorem weight_scale_homogeneity_witness :
    (frontier [1, 2] [3, 4]).getD 0 (0, 0) =
      (100 * Real.sqrt (calc_portfolio_variance (((0 : ℕ) : ℝ) / 100) [1, 2]
          ((100 - ((0 : ℕ) : ℝ)) / 100) [3, 4] (calc_correlation [1, 2] [3, 4])),
        100 * calc_portfolio_expected_return (((0 : ℕ) : ℝ) / 100) [1, 2]
          ((100 - ((0 : ℕ) : ℝ)) / 100) [3, 4]) ∧
    ((frontier [1, 2] [3, 4]).getD 100 (0, 0)).1 =
      100 * calc_percent_deviation [1, 2] :=
  ⟨weight_scale_homogeneity.2.2.1 [1, 2] [3, 4] 0 (by norm_num),
   weight_scale_homogeneity.2.2.2 [1, 2] [3, 4] (by norm_num [mean])⟩

/-- Claim C2: the minimum-variance allocation always satisfies
percentA + percentB = 1 with percentA clamped into [0, 1]. -/
theorem minimum_variance_allocation_valid (a b : List ℚ) :
    (calc_minimum_variance_allocation a b).1 +
      (calc_minimum_variance_allocation a b).2 = 1 ∧
    0 ≤ (calc_minimum_variance_allocation a b).1 ∧
    (calc_minimum_variance_allocation a b).1 ≤ 1 := by
  unfold calc_minimum_variance_allocation
  dsimp only
  split_ifs with h1 h2
  · norm_num
  · norm_num
  · push_neg at h1 h2
    exact ⟨by ring, h2, h1⟩

/-- Claim C8: expected return is (last - first) / first for a nonempty series
with nonzero first element, fails when the first element is zero, and takes
the documented values on the two concrete scenario series. -/
theorem expected_return_spec :
    (∀ p : List ℚ, p ≠ [] → p.headD 0 ≠ 0 →
      calc_expected_return? p =
        some ((p.getLastD 0 - p.headD 0) / p.headD 0)) ∧
    (∀ p : List ℚ, p.headD 0 = 0 → calc_expected_return? p = none) ∧
    calc_expected_return? [100, 102, 101, 105, 110] = some (1 / 10) ∧
    calc_expected_return? [50, 49, 51, 50, 52] = some (1 / 25) := by
  refine ⟨?_, ?_,
    by norm_num [calc_expected_return?, calc_expected_return],
    by norm_num [calc_expected_return?, calc_expected_return]⟩
  · intro p hp h0
    unfold calc_expected_return? calc_expected_return
    rw [if_neg (by simpa [List.isEmpty_iff] using hp), if_neg h0]
  · intro p h0
    unfold calc_expected_return?
    rcases p with _ | ⟨x, t⟩
    · rfl
    · rw [if_neg (by simp), if_pos h0]

/-- Claim C8 witness: the general formula and the failure case at concrete
inputs. -/
theorem expected_return_spec_witness :
    calc_expected_return? [2, 3] = some (1 / 2) ∧
    calc_expected_return? [0, 5] = none :=
  ⟨(expected_return_spec.1 [2, 3] (by simp) (by norm_num)).trans (by norm_num),
   expected_return_spec.2.1 [0, 5] rfl⟩

/-- Claim C9: covariance sums positional products over the first
min(len a, len b) index pairs yet divides by len a - 1; it is asymmetric for
unequal lengths and differs from the sample covariance of the truncated
equal-length prefixes. -/
theorem covariance_zip_truncation :
    (∀ a b : List ℚ, calc_covariance a b =
      (∑ i ∈ Finset.range (min a.length b.length),
        (a.getD i 0 - mean a) * (b.getD i 0 - mean b)) /
        ((a.length : ℚ) - 1)) ∧
    calc_covariance [1, 2, 3] [1, 3] ≠ calc_covariance [1, 3] [1, 2, 3] ∧
    calc_covariance [1, 2, 3] [1, 3] ≠
      calc_covariance (([1, 2, 3] : List ℚ).take 2) (([1, 3] : List ℚ).take 2) := by
  refine ⟨?_, by norm_num [calc_covariance, mean], by norm_num [calc_covariance, mean]⟩
  intro a b
  unfold calc_covariance
  rw [sum_zip_eq_range_sum (fun x y => (x - mean a) * (y - mean b))]

/-- Claim C4: covariance and correlation are symmetric in their two
arguments when the two series have equal length. -/
theorem covariance_correlation_symm (a b : List ℚ) (h : a.length = b.length) :
    calc_covariance a b = calc_covariance b a ∧
    calc_correlation a b = calc_correlation b a := by
  have hcov : calc_covariance a b = calc_covariance b a := by
    unfold calc_covariance
    rw [sum_zip_eq_range_sum (fun x y => (x - mean a) * (y - mean b)),
      sum_zip_eq_range_sum (fun x y => (x - mean b) * (y - mean a)), h,
      min_self]
    congr 1
    exact Finset.sum_congr rfl (fun i _ => mul_comm _ _)
  refine ⟨hcov, ?_⟩
  unfold calc_correlation
  rw [hcov, mul_comm]

/-- Claim C4 witness: symmetry at a concrete pair of equal-length series. -/
theorem covariance_correlation_symm_witness :
    calc_covariance [1, 2] [3, 5] = calc_covariance [3, 5] [1, 2] ∧
    calc_correlation [1, 2] [3, 5] = calc_correlation [3, 5] [1, 2] :=
  covariance_correlation_symm [1, 2] [3, 5] rfl

/-- Claim C7: when either series of length at least two is constant (zero
sample variance, hence zero standard deviation), the correlation computation
fails rather than returning a number. -/
theorem correlation_constant_series_none (a b : List ℚ) (ha : 2 ≤ a.length)
    (hb : 2 ≤ b.length) (h : svar a = 0 ∨ svar b = 0) :
    calc_correlation? a b = none := by
  unfold calc_correlation?
  rw [if_neg (by omega), if_neg (by omega), if_pos]
  rcases h with h | h <;> simp [stdev, h]

/-- Claim C7 witness: the constant series [100, 100, 100] makes the
correlation against [50, 49, 51] fail. -/
theorem correlation_constant_series_none_witness :
    calc_correlation? [100, 100, 100] [50, 49, 51] = none :=
  correlation_constant_series_none [100, 100, 100] [50, 49, 51]
    (by decide) (by decide) (Or.inl (by norm_num [svar, mean]))

/-- Pulling a constant factor out of a mapped sum. -/
theorem sum_map_mul_const (k : ℚ) (g : ℚ → ℚ) (l : List ℚ) :
    (l.map (fun x => k * g x)).sum = k * (l.map g).sum := by
  induction l with
  | nil => simp
  | cons x t ih => simp [ih, mul_add]

/-- Scaling every price by k scales the mean by k. -/
theorem mean_map_scale (k : ℚ) (l : List ℚ) :
    mean (l.map (fun x => k * x)) = k * mean l := by
  unfold mean
  rw [show (l.map (fun x => k * x)) = (l.map (fun x => k * id x)) from rfl,
    sum_map_mul_const k id l, List.map_id, List.length_map, mul_div_assoc]

/-- Scaling every price by k scales the sample variance by k squared. -/
theorem svar_map_scale (k : ℚ) (l : List ℚ) :
    svar (l.map (fun x => k * x)) = k ^ 2 * svar l := by
  unfold svar
  rw [List.length_map, List.map_map]
  have hfun : ((fun x => (x - mean (l.map (fun x => k * x))) ^ 2) ∘
      (fun x => k * x)) = fun x => k ^ 2 * ((x - mean l) ^ 2) := by
    funext x
    simp only [Function.comp, mean_map_scale]
    ring
  rw [hfun, sum_map_mul_const (k ^ 2) (fun x => (x - mean l) ^ 2) l,
    mul_div_assoc]

/-- Scaling every price by a nonnegative k scales the standard deviation by k. -/
theorem stdev_map_scale (k : ℚ) (hk : 0 ≤ k) (l : List ℚ) :
    stdev (l.map (fun x => k * x)) = (k : ℝ) * stdev l := by
  unfold stdev
  rw [svar_map_scale]
  push_cast
  rw [Real.sqrt_mul (by positivity), Real.sqrt_sq (by exact_mod_cast hk)]

/-- The head default of a scaled nonempty list. -/
theorem headD_map_scale (k : ℚ) (p : List ℚ) (h : p ≠ []) :
    (p.map (fun x => k * x)).headD 0 = k * p.headD 0 := by
  cases p with
  | nil => exact absurd rfl h
  | cons x t => simp

/-- The last-element default of a scaled nonempty list. -/
theorem getLastD_map_scale (k : ℚ) (p : List ℚ) (h : p ≠ []) :
    (p.map (fun x => k * x)).getLastD 0 = k * p.getLastD 0 := by
  induction p with
  | nil => exact absurd rfl h
  | cons x t ih =>
    cases t with
    | nil => simp
    | cons y u => simpa using ih (by simp)

/-- Claim C5: expected return and percent deviation are invariant under
scaling every price by a positive constant factor. -/
theorem scale_invariance (p : List ℚ) (k : ℚ) (hp : 2 ≤ p.length)
    (h0 : p.headD 0 ≠ 0) (hm : mean p ≠ 0) (hk : 0 < k) :
    calc_expected_return (p.map (fun x => k * x)) = calc_expected_return p ∧
    calc_percent_deviation (p.map (fun x => k * x)) =
      calc_percent_deviation p := by
  have hne : p ≠ [] := by
    intro h
    rw [h] at hp
    simp at hp
  constructor
  · unfold calc_expected_return
    rw [headD_map_scale k p hne, getLastD_map_scale k p hne, ← mul_sub,
      mul_div_mul_left _ _ (ne_of_gt hk)]
  · unfold calc_percent_deviation
    rw [stdev_map_scale k hk.le, mean_map_scale]
    push_cast
    rw [mul_div_mul_left _ _ (by exact_mod_cast hk.ne')]

/-- Claim C5 witness: invariance at the concrete series [1, 2] scaled by 2. -/
theorem scale_invariance_witness :
    calc_expected_return (([1, 2] : List ℚ).map (fun x => 2 * x)) =
      calc_expected_return [1, 2] ∧
    calc_percent_deviation (([1, 2] : List ℚ).map (fun x => 2 * x)) =
      calc_percent_deviation [1, 2] :=
  scale_invariance [1, 2] 2 (by norm_num) (by norm_num) (by norm_num [mean])
    (by norm_num)

/-- Claim C3: for equal-length series of at least two points whose sample
variances are nonzero (non-constant series), the correlation lies in the
closed interval from -1 to 1. -/
theorem correlation_in_unit_interval (a b : List ℚ) (hlen : a.length = b.length)
    (h2 : 2 ≤ a.length) (hva : svar a ≠ 0) (hvb : svar b ≠ 0) :
    -1 ≤ calc_correlation a b ∧ calc_correlation a b ≤ 1 := by
  have hm : (0 : ℚ) < (a.length : ℚ) - 1 := by
    have : (2 : ℚ) ≤ (a.length : ℚ) := by exact_mod_cast h2
    linarith
  have hkey : calc_covariance a b ^ 2 ≤ svar a * svar b := by
    have hrw : calc_covariance a b =
        (∑ i ∈ Finset.range a.length,
          (a.getD i 0 - mean a) * (b.getD i 0 - mean b)) /
          ((a.length : ℚ) - 1) := by
      unfold calc_covariance
      rw [sum_zip_eq_range_sum (fun x y => (x - mean a) * (y - mean b)),
        min_eq_left hlen.le]
    have hsb : svar b =
        (∑ i ∈ Finset.range a.length, (b.getD i 0 - mean b) ^ 2) /
          ((a.length : ℚ) - 1) := by
      rw [svar_eq_range_sum, ← hlen]
    rw [hrw, svar_eq_range_sum a, hsb, div_pow, div_mul_div_comm,
      pow_two ((a.length : ℚ) - 1), div_le_div_iff_of_pos_right (mul_pos hm hm)]
    exact Finset.sum_mul_sq_le_sq_mul_sq _ _ _
  have hva0 : 0 ≤ svar a := by
    rw [svar_eq_range_sum]
    exact div_nonneg (Finset.sum_nonneg (fun i _ => sq_nonneg _)) (by linarith)
  have hvb0 : 0 ≤ svar b := by
    rw [svar_eq_range_sum]
    have : (0 : ℚ) ≤ (b.length : ℚ) - 1 := by rw [← hlen]; linarith
    exact div_nonneg (Finset.sum_nonneg (fun i _ => sq_nonneg _)) this
  have hvaR : (0 : ℝ) < (svar a : ℝ) := by
    exact_mod_cast hva0.lt_of_ne (Ne.symm hva)
  have hvbR : (0 : ℝ) < (svar b : ℝ) := by
    exact_mod_cast hvb0.lt_of_ne (Ne.symm hvb)
  have hsq : stdev a * stdev b = Real.sqrt ((svar a : ℝ) * (svar b : ℝ)) :=
    (Real.sqrt_mul hvaR.le _).symm
  have hpos : 0 < stdev a * stdev b := by
    rw [hsq]
    exact Real.sqrt_pos.mpr (mul_pos hvaR hvbR)
  have habs : |calc_correlation a b| ≤ 1 := by
    unfold calc_correlation
    rw [abs_div, abs_of_pos hpos, div_le_one hpos, hsq,
      show |((calc_covariance a b : ℚ) : ℝ)| =
        Real.sqrt (((calc_covariance a b : ℚ) : ℝ) ^ 2) from
        (Real.sqrt_sq_eq_abs _).symm]
    apply Real.sqrt_le_sqrt
    exact_mod_cast hkey
  exact abs_le.mp habs

/-- Claim C3 witness: the correlation of [1, 2] and [1, 3] is in [-1, 1]. -/
theorem correlation_in_unit_interval_witness :
    -1 ≤ calc_correlation [1, 2] [1, 3] ∧ calc_correlation [1, 2] [1, 3] ≤ 1 :=
  correlation_in_unit_interval [1, 2] [1, 3] rfl (by norm_num)
    (by norm_num [svar, mean]) (by norm_num [svar, mean])

end PortfolioMix
